import Mathlib

/-!
Verification model of the MyEye capture-multiplexing layer.

The definitions below are a shallow embedding of the Python sources:
`src/capture_manager.py` (device enumeration and the `CaptureManager`
registry), `src/panel_mixin.py` (`_select_slot` caller-side exclusivity),
`src/main_window.py` (`apply_settings` rescan, `update_frame` motion
detection, `toggle_motion`) and `src/actions_mixin.py` (corner recording
sessions).  Effectful library calls (cv2 capture opens, video-writer
creation, sysfs reads) are modelled by explicit outcome oracles passed as
arguments, so every definition is executable; exceptions caught by the
source's `try`/`except` blocks correspond to explicit failure outcomes.
-/

namespace MyEye

/-- Association-list lookup keyed by strings, mirroring Python `dict.get`:
returns the value stored at `k`, or `none` when absent. -/
def alistGet {α : Type} (k : String) : List (String × α) → Option α
  | [] => none
  | (k', v) :: rest => if k' = k then some v else alistGet k rest

/-- Association-list assignment mirroring Python `d[k] = v`: updates the
entry in place when the key is present (keeping its position, as an
insertion-ordered Python dict does), otherwise appends a fresh entry. -/
def alistSet {α : Type} (k : String) (v : α) : List (String × α) → List (String × α)
  | [] => [(k, v)]
  | (k', v') :: rest => if k' = k then (k, v) :: rest else (k', v') :: alistSet k v rest

/-- Association-list removal mirroring Python `d.pop(k, None)`: drops the
entry stored at `k`, if any. -/
def alistRemove {α : Type} (k : String) : List (String × α) → List (String × α)
  | [] => []
  | (k', v') :: rest => if k' = k then rest else (k', v') :: alistRemove k rest

/-! ### Device enumeration (`scan_cameras` in `src/capture_manager.py`) -/

/-- Numeric value of a list of decimal digit characters, as Python's
`int` builds it (so leading zeros are ignored: `int("007") = 7`). -/
def digitsVal (cs : List Char) : Nat :=
  cs.foldl (fun a c => a * 10 + (c.toNat - 48)) 0

/-- Embedding of the regex match `re.search(r"video(\d+)$", node)` followed
by `int(m.group(1))`: succeeds exactly when the node name ends in `video`
followed by a nonempty run of decimal digits, returning that number.  The
suffix test compares the reversed character list against `"video"`
reversed. -/
def parseVideoIdx (node : String) : Option Nat :=
  let rev := node.data.reverse
  let revDigits := rev.takeWhile Char.isDigit
  if revDigits.isEmpty then none
  else if (rev.dropWhile Char.isDigit).take 5 = ['o', 'e', 'd', 'i', 'v'] then
    some (digitsVal revDigits.reverse)
  else none

/-- One entry of the list returned by `scan_cameras`; the Python code builds
these as dicts with exactly the keys `index`, `path`, `name`, `display`
and `all_nodes`, always populated. -/
structure ScanEntry where
  index : Nat
  path : String
  name : String
  display : String
  allNodes : List Nat
deriving DecidableEq

/-- Environment for the Linux sysfs scan: `parent idx` is the realpath of
`/sys/class/video4linux/video{idx}/device` when that link exists (`none`
models a missing link or an exception, both of which leave `parent = None`
in the source); `nodeName idx` is the stripped contents of the sysfs
`name` file when it exists; `realpath` is `os.path.realpath` on the
`/dev` node itself. -/
structure ScanEnv where
  parent : Nat → Option String
  nodeName : Nat → Option String
  realpath : String → String

/-- Resolved display name of a node: the sysfs name when present and
nonempty after stripping (`f.read().strip() or name`), else the node path. -/
def resolveName (env : ScanEnv) (node : String) (idx : Nat) : String :=
  match env.nodeName idx with
  | some s => if s = "" then node else s
  | none => node

/-- Grouping key of a node: the physical parent when the sysfs device link
resolves to a non-empty path, otherwise the realpath of the node itself
(`key = parent if parent else os.path.realpath(node)`). -/
def groupKey (env : ScanEnv) (node : String) (idx : Nat) : String :=
  match env.parent idx with
  | some p => if p = "" then env.realpath node else p
  | none => env.realpath node

/-- Descriptor created the first time a physical-device group is seen. -/
def newEntry (env : ScanEnv) (node : String) (idx : Nat) : ScanEntry :=
  let nm := resolveName env node idx
  ⟨idx, node, nm, nm ++ " (" ++ node ++ ")", [idx]⟩

/-- Merge of a later node into its group's existing descriptor: the index
joins `all_nodes` and, when it is lower than the stored one, takes over
`index` and `path`, rebuilding `display` from the *existing* name. -/
def mergeEntry (e : ScanEntry) (node : String) (idx : Nat) : ScanEntry :=
  if idx < e.index then
    { e with
        allNodes := e.allNodes ++ [idx],
        index := idx,
        path := node,
        display := e.name ++ " (" ++ node ++ ")" }
  else { e with allNodes := e.allNodes ++ [idx] }

/-- Body of the `for node in sorted(glob.glob("/dev/video*"))` loop of
`scan_linux`: parse the trailing index, group by physical parent; the
first node of a group creates the descriptor, a later node of the same
group merges into it. -/
def scanVisit (env : ScanEnv) (devices : List (String × ScanEntry)) (node : String) :
    List (String × ScanEntry) :=
  match parseVideoIdx node with
  | none => devices
  | some idx =>
    match alistGet (groupKey env node idx) devices with
    | none => alistSet (groupKey env node idx) (newEntry env node idx) devices
    | some e => alistSet (groupKey env node idx) (mergeEntry e node idx) devices

/-- Strict lexicographic comparison of character sequences by code point,
as Python compares strings. -/
def lexLt : List Char → List Char → Bool
  | _, [] => false
  | [], _ :: _ => true
  | a :: as, b :: bs =>
    if a.toNat < b.toNat then true
    else if b.toNat < a.toNat then false
    else lexLt as bs

/-- Python's `<` on strings. -/
def strLt (a b : String) : Bool :=
  lexLt a.data b.data

/-- Stable insertion of a string into an ascending list, used to model
Python's `sorted` over the glob result. -/
def insertStr (x : String) : List String → List String
  | [] => [x]
  | y :: ys => if strLt y x then y :: insertStr x ys else x :: y :: ys

/-- Ascending (lexicographic) sort of the node names, as
`sorted(glob.glob("/dev/video*"))` produces. -/
def sortStrings : List String → List String
  | [] => []
  | x :: xs => insertStr x (sortStrings xs)

/-- Stable insertion of a scan entry into a list ascending by `index`. -/
def insertByIdx (x : ScanEntry) : List ScanEntry → List ScanEntry
  | [] => [x]
  | y :: ys => if y.index < x.index then y :: insertByIdx x ys else x :: y :: ys

/-- Stable sort of scan entries by `index`, modelling
`sorted(devices.values(), key=lambda c: c.get("index", 9999))` (every
entry the loop builds carries an `index`, so the `9999` default is inert). -/
def sortByIdx : List ScanEntry → List ScanEntry
  | [] => []
  | x :: xs => insertByIdx x (sortByIdx xs)

/-- Embedding of `scan_linux`: visit the glob results in sorted order,
merge nodes sharing a physical parent, and return the merged descriptors
sorted by index. `nodes` is the (unsorted) glob result. -/
def scanLinux (env : ScanEnv) (nodes : List String) : List ScanEntry :=
  sortByIdx ((((sortStrings nodes).foldl (scanVisit env) []).map Prod.snd))

/-- Outcome of `cv2.VideoCapture(idx)` during index probing: the
constructor raised, or produced a capture that is not opened, or produced
an opened capture. -/
inductive ProbeOutcome
  | raises
  | notOpened
  | opened
deriving DecidableEq

/-- Descriptor built by `probe_indices` for an index that opened:
`{"index": idx, "path": str(idx), "name": f"Camera {idx}",
"display": f"{name} (index {idx})", "all_nodes": [idx]}`. -/
def probeEntry (idx : Nat) : ScanEntry :=
  let nm := "Camera " ++ toString idx
  ⟨idx, toString idx, nm, nm ++ " (index " ++ toString idx ++ ")", [idx]⟩

/-- Embedding of `probe_indices`: try each index below the bound, keep the
ones whose capture opened; a raising constructor or an unopened capture
just skips that index (the capture is then released, and a raising
`release` is swallowed without affecting the result). -/
def probeIndices (env : Nat → ProbeOutcome) (maxDevices : Nat) : List ScanEntry :=
  (List.range maxDevices).filterMap (fun idx =>
    match env idx with
    | .opened => some (probeEntry idx)
    | _ => none)

/-- Embedding of `scan_cameras`: run the Linux node scan when on Linux,
and fall back to index probing (bound 10) when the node scan is
unavailable (non-Linux) or yields nothing. -/
def scanCameras (isLinux : Bool) (env : ScanEnv) (nodes : List String)
    (penv : Nat → ProbeOutcome) : List ScanEntry :=
  let linuxCams := if isLinux then scanLinux env nodes else []
  if linuxCams.isEmpty then probeIndices penv 10 else linuxCams

/-! ### The capture registry (`CaptureManager` in `src/capture_manager.py`) -/

/-- Device descriptors as the registry's callers hand them around: Python
dicts whose `index` and `path` keys may be absent (`dict.get` yields
`None`).  `Descriptor.ofEntry` injects the always-populated scan output. -/
structure Descriptor where
  index : Option Int
  path : Option String
  name : String
  display : String
  allNodes : List Int
deriving DecidableEq

/-- View of a scan entry as a caller-side descriptor dict. -/
def Descriptor.ofEntry (e : ScanEntry) : Descriptor :=
  ⟨some (e.index : Int), some e.path, e.name, e.display, e.allNodes.map (fun n => (n : Int))⟩

/-- Argument type of `CaptureManager._key` and `CaptureManager.get`:
a Python `int`, `str`, or descriptor dict. -/
inductive Src
  | int (n : Int)
  | str (s : String)
  | desc (d : Descriptor)
deriving DecidableEq

/-- Argument type of `CaptureManager._open`: a Python `int`, `str`, or
`None`. -/
inductive Target
  | null
  | int (n : Int)
  | str (s : String)
deriving DecidableEq

/-- Python `str()` of an optional int (`str(None) = "None"`). -/
def pyStrOptInt : Option Int → String
  | some n => toString n
  | none => "None"

/-- Embedding of `CaptureManager._key`: a dict maps to
`str(src.get("path") or src.get("index"))` (the Python `or` falls through
on a missing or empty path), an int to `f"/dev/video{src}"`, and a string
to itself. -/
def keySrc : Src → String
  | .desc d =>
    match d.path with
    | some p => if p = "" then pyStrOptInt d.index else p
    | none => pyStrOptInt d.index
  | .int n => "/dev/video" ++ toString n
  | .str s => s

/-- Identity key of an `_open` target, as `open_all` computes it via
`self._key(target)` (`_key(None)` falls through to `str(None)`). -/
def keyOfTarget : Target → String
  | .null => "None"
  | .int n => "/dev/video" ++ toString n
  | .str s => s

/-- Open target derived from a descriptor, as both `open_all` and `get`
compute it: the index when it is an int `>= 0`, else the path, else
`None`. -/
def Descriptor.target (d : Descriptor) : Target :=
  match d.index with
  | some i =>
    if 0 ≤ i then .int i
    else match d.path with
      | some p => .str p
      | none => .null
  | none =>
    match d.path with
    | some p => .str p
    | none => .null

/-- Open target of a `get` argument (`target = src` for ints and
strings). -/
def targetOf : Src → Target
  | .int n => .int n
  | .str s => .str s
  | .desc d => d.target

/-- Outcome of a `cv2.VideoCapture(src, CAP_BACKEND)` call inside
`CaptureManager._open`: the constructor raised, or produced an unopened
capture (which `_open` then releases), or produced an opened capture. -/
inductive OpenOutcome
  | failRaise
  | failClosed
  | ok
deriving DecidableEq

/-- State of the capture registry together with the device-side world:
`captures` is the insertion-ordered `self.captures` dict mapping identity
keys to handles; `openHandles` is the set of handles whose `isOpened()`
currently reports true (a device disconnect removes a handle from it
between operations); `nextHandle` feeds fresh handle identities. -/
structure RegistryState where
  captures : List (String × Nat)
  openHandles : List Nat
  nextHandle : Nat
deriving DecidableEq

/-- Python's `cap.isOpened()` on a handle of this state. -/
def RegistryState.isOpened (st : RegistryState) (h : Nat) : Bool :=
  decide (h ∈ st.openHandles)

/-- Embedding of `CaptureManager._open`: `None` targets yield `None`; a
raising constructor yields `None`; an unopened capture is released and
yields `None`; an opened capture has its buffer size set (no observable
state here, and a raising `set` is swallowed) and is returned.  The
function is total: `_open` never raises to its caller. -/
def openOne (o : OpenOutcome) (t : Target) (st : RegistryState) :
    Option Nat × RegistryState :=
  match t with
  | .null => (none, st)
  | _ =>
    match o with
    | .failRaise => (none, st)
    | .failClosed => (none, { st with nextHandle := st.nextHandle + 1 })
    | .ok =>
      (some st.nextHandle,
        { st with
            openHandles := st.nextHandle :: st.openHandles,
            nextHandle := st.nextHandle + 1 })

/-- Shared tail of `CaptureManager.get`: open the target and, on success,
store the fresh handle under the key computed at entry. -/
def openAndStore (o : OpenOutcome) (src : Src) (k : String) (st : RegistryState) :
    Option Nat × RegistryState :=
  match openOne o (targetOf src) st with
  | (some h, st') => (some h, { st' with captures := alistSet k h st'.captures })
  | (none, st') => (none, st')

/-- Embedding of `CaptureManager.get`: return the stored handle when it
reports open; otherwise release the stale handle, drop its entry, and try
a single reopen, storing the fresh handle on success and returning `None`
on failure. -/
def getCap (o : OpenOutcome) (src : Src) (st : RegistryState) :
    Option Nat × RegistryState :=
  match alistGet (keySrc src) st.captures with
  | some cap =>
    if st.isOpened cap then (some cap, st)
    else
      openAndStore o src (keySrc src)
        { st with
            openHandles := st.openHandles.erase cap,
            captures := alistRemove (keySrc src) st.captures }
  | none => openAndStore o src (keySrc src) st

/-- Embedding of `CaptureManager.release`: pop the key's entry and release
its handle; releasing an absent key is a no-op (a raising `release` is
swallowed). -/
def releaseCap (src : Src) (st : RegistryState) : RegistryState :=
  match alistGet (keySrc src) st.captures with
  | some cap =>
    { st with
        captures := alistRemove (keySrc src) st.captures,
        openHandles := st.openHandles.erase cap }
  | none => st

/-- Embedding of `CaptureManager.release_all`: release every stored handle
and clear the dict. -/
def releaseAll (st : RegistryState) : RegistryState :=
  { st with
      captures := [],
      openHandles :=
        st.openHandles.filter (fun h => !(st.captures.any (fun p => p.2 = h))) }

/-- Body of the `for cam in cams` loop of `CaptureManager.open_all`: open
the cam's target and store the handle, unless the key is already present;
a failed open stores nothing. -/
def openAllStep (st : RegistryState) (p : Descriptor × OpenOutcome) : RegistryState :=
  match alistGet (keyOfTarget p.1.target) st.captures with
  | some _ => st
  | none =>
    match openOne p.2 p.1.target st with
    | (some h, st') => { st' with captures := alistSet (keyOfTarget p.1.target) h st'.captures }
    | (none, st') => st'

/-- Embedding of `CaptureManager.open_all` over a camera list paired with
the open outcome cv2 would produce for each. -/
def openAll (cams : List (Descriptor × OpenOutcome)) (st : RegistryState) : RegistryState :=
  cams.foldl openAllStep st

/-- Registry effect of `apply_settings` (src/main_window.py lines
250-253), which runs on every role clear/reassignment coming from the
control panel: rescan, release every handle, then pre-open all detected
cameras. -/
def applySettingsRescan (cams : List (Descriptor × OpenOutcome)) (st : RegistryState) :
    RegistryState :=
  openAll cams (releaseAll st)

/-! ### Caller-side slot exclusivity (`PanelMixin._select_slot` in
`src/panel_mixin.py`) -/

/-- The three persistent camera slots of the settings record. -/
inductive Slot
  | main
  | corner1
  | corner2
deriving DecidableEq, Fintype

/-- Slot fields of the pending-settings dict: per slot a stored numeric
index (`settings[slot]`) and a stored device path
(`settings[f"{slot}_path"]`). -/
structure Slots where
  mainIdx : Option Int
  mainPath : Option String
  corner1Idx : Option Int
  corner1Path : Option String
  corner2Idx : Option Int
  corner2Path : Option String
deriving DecidableEq

/-- Stored index of a slot. -/
def Slots.getIdx (p : Slots) : Slot → Option Int
  | .main => p.mainIdx
  | .corner1 => p.corner1Idx
  | .corner2 => p.corner2Idx

/-- Stored path of a slot. -/
def Slots.getPath (p : Slots) : Slot → Option String
  | .main => p.mainPath
  | .corner1 => p.corner1Path
  | .corner2 => p.corner2Path

/-- Writing one slot's index and path. -/
def Slots.setSlot (p : Slots) : Slot → Option Int → Option String → Slots
  | .main, i, s => { p with mainIdx := i, mainPath := s }
  | .corner1, i, s => { p with corner1Idx := i, corner1Path := s }
  | .corner2, i, s => { p with corner2Idx := i, corner2Path := s }

/-- The `other_slots` table of `_select_slot`. -/
def otherSlots : Slot → List Slot
  | .main => [.corner1, .corner2]
  | .corner1 => [.main, .corner2]
  | .corner2 => [.main, .corner1]

/-- The conflict test of `_select_slot` against one other slot:
`(cam.get("path") and cam.get("path") == other_path) or
(cam.get("index") is not None and cam.get("index") == other_cam)`. -/
def conflictsWith (cam : Descriptor) (otherIdx : Option Int) (otherPath : Option String) :
    Bool :=
  (match cam.path with
   | some p => decide (p ≠ "") && decide (otherPath = some p)
   | none => false)
  || (match cam.index with
      | some i => decide (otherIdx = some i)
      | none => false)

/-- Index value `_select_slot` stores for a selected camera:
`cam.get("index") if isinstance(cam.get("index"), int) and
cam.get("index") >= 0 else None`. -/
def storedIdx (c : Descriptor) : Option Int :=
  match c.index with
  | some i => if 0 ≤ i then some i else none
  | none => none

/-- Embedding of `PanelMixin._select_slot` on the pending-settings dict:
selecting a camera that conflicts with another slot shows a warning,
restores the combo box and returns with the pending settings untouched
(second component `true`); otherwise the slot's index (kept only when it
is an int `>= 0`) and path are written.  Selecting `None` clears the
slot. -/
def selectSlot (slot : Slot) (cam : Option Descriptor) (pending : Slots) :
    Slots × Bool :=
  match cam with
  | none => (pending.setSlot slot none none, false)
  | some c =>
    if (otherSlots slot).any
        (fun o => conflictsWith c (pending.getIdx o) (pending.getPath o)) then
      (pending, true)
    else
      (pending.setSlot slot (storedIdx c) c.path, false)

/-- Two slot assignments reference the same physical device exactly when
they share a nonempty path or share a numeric index — the same notion of
identity that `_select_slot`'s conflict test uses. -/
def slotClash (i1 : Option Int) (p1 : Option String) (i2 : Option Int)
    (p2 : Option String) : Bool :=
  (match p1, p2 with
   | some s, some t => decide (s ≠ "") && decide (s = t)
   | _, _ => false)
  || (match i1, i2 with
      | some n, some m => decide (n = m)
      | _, _ => false)

/-- The three slots reference pairwise distinct physical devices. -/
def slotsPairwiseDistinct (p : Slots) : Prop :=
  ∀ s1 s2 : Slot, s1 ≠ s2 →
    slotClash (p.getIdx s1) (p.getPath s1) (p.getIdx s2) (p.getPath s2) = false

/-! ### Motion detection (`update_frame` and `toggle_motion` in
`src/main_window.py`) -/

/-- A grayscale image, flattened to its pixel values (`0`–`255`). -/
abbrev Gray := List Nat

/-- Pixelwise `cv2.absdiff`. -/
def absdiff (a b : Gray) : Gray :=
  List.zipWith (fun x y => max x y - min x y) a b

/-- The call `cv2.threshold(diff, 25, 255, cv2.THRESH_BINARY)`: a pixel
strictly above 25 becomes 255, all others 0. -/
def thresh25 (g : Gray) : Gray :=
  g.map (fun p => if 25 < p then 255 else 0)

/-- The call `cv2.countNonZero`. -/
def countNonZero (g : Gray) : Nat :=
  (g.filter (fun p => p ≠ 0)).length

/-- Opaque frame-conversion collaborators of the motion block:
`cv2.cvtColor(..., COLOR_BGR2GRAY)` and `cv2.GaussianBlur(..., (5,5), 0)`,
modelled as total functions on an abstract frame type (on well-formed
frames these cv2 calls do not raise, so the defensive `except` branch of
the source is unreachable in this model). -/
structure MotionEnv (F : Type) where
  toGray : F → Gray
  blur5 : Gray → Gray

/-- Motion-detection step of `update_frame` on one delivered frame: when
enabled, convert to grayscale, blur, compare with the retained frame if
one exists (motion exactly when more than 5000 pixels differ by more than
the threshold), and always retain the new blurred grayscale; when
disabled, clear the retained frame and report no motion.  Result is
`(motion, retained frame after the step)`. -/
def motionStep {F : Type} (env : MotionEnv F) (motionEnabled : Bool)
    (prevGray : Option Gray) (frame : F) : Bool × Option Gray :=
  if motionEnabled then
    let gray := env.blur5 (env.toGray frame)
    let motion :=
      match prevGray with
      | some p => decide (5000 < countNonZero (thresh25 (absdiff p gray)))
      | none => false
    (motion, some gray)
  else (false, none)

/-- Embedding of `toggle_motion`: the enabled flag follows the button;
turning detection off clears the retained frame.  Result is
`(motion_enabled, prev_gray)`. -/
def toggleMotion (checked : Bool) (prevGray : Option Gray) : Bool × Option Gray :=
  if checked then (true, prevGray) else (false, none)

/-! ### Corner recording sessions (`src/actions_mixin.py`) -/

/-- A `cv2.VideoWriter` as `_record_corner_frame` creates it: target file,
frame rate and frame dimensions passed to the constructor. -/
structure Writer where
  file : String
  fps : ℚ
  width : Nat
  height : Nat
deriving DecidableEq

/-- Recording-session state of one corner: the `corner_recording`,
`corner_record_files`, `corner_record_writers` and `corner_record_fps`
entries for that corner. -/
structure CornerSession where
  recording : Bool
  file : Option String
  writer : Option Writer
  fps : ℚ
deriving DecidableEq

/-- Embedding of `stop_corner_recording`: mark the session stopped,
release and drop the writer, drop the file (the configured fps is kept). -/
def stopCornerRecording (s : CornerSession) : CornerSession :=
  { s with recording := false, writer := none, file := none }

/-- Embedding of `start_corner_recording` once the camera checks pass:
pick a fresh target file, configure the frame rate from the device
(`cap.get(CAP_PROP_FPS) or 20.0`, then replaced by `20.0` unless at least
1) and mark the session recording. -/
def startCornerRecording (deviceFps : ℚ) (file : String) (s : CornerSession) :
    CornerSession :=
  { s with
      file := some file,
      fps := if 1 ≤ deviceFps then deviceFps else 20,
      recording := true }

/-- Outcome of the `cv2.VideoWriter(...)` construction inside
`_record_corner_frame`: raised, created but not opened, or created open. -/
inductive CreateOutcome
  | raises
  | notOpened
  | created
deriving DecidableEq

/-- Embedding of `_record_corner_frame` for one corner and one delivered
frame of dimensions `w × h`: nothing happens unless the session is
recording and has a target file; the writer is created lazily from the
frame's dimensions and the session's fps, a failed creation (raise or
unopened writer) stopping the session before any write; a raising
`writer.write` also stops the session.  Result is
`(session after the call, whether a frame was written)`. -/
def recordCornerFrame (co : CreateOutcome) (writeOk : Bool) (w h : Nat)
    (s : CornerSession) : CornerSession × Bool :=
  if s.recording then
    match s.file with
    | none => (s, false)
    | some path =>
      match s.writer with
      | none =>
        match co with
        | .raises => (stopCornerRecording s, false)
        | .notOpened => (stopCornerRecording s, false)
        | .created =>
          let s1 : CornerSession :=
            { s with writer := some ⟨path, s.fps, w, h⟩ }
          if writeOk then (s1, true) else (stopCornerRecording s1, false)
      | some _ =>
        if writeOk then (s, true) else (stopCornerRecording s, false)
  else (s, false)

/-! ### Concrete fixtures used by the counterexample and witness theorems -/

/-- Scan environment with no sysfs data and identity realpaths. -/
def scanEnvTrivial : ScanEnv :=
  ⟨fun _ => none, fun _ => none, fun s => s⟩

/-- Probe environment in which only index 3 opens. -/
def penvOnly3 : Nat → ProbeOutcome :=
  fun n => if n = 3 then .opened else .raises

/-- Scan environment for two nodes of one physical device whose sysfs
names differ: node 10 is named `Camera Ten`, node 2 `Camera Two`. -/
def scanEnvTwoNodes : ScanEnv :=
  ⟨fun _ => some "usb-0:1.2",
   fun n => if n = 10 then some "Camera Ten" else if n = 2 then some "Camera Two" else none,
   fun s => s⟩

/-- Registry state in which the open handle `0` of device `/dev/video0` is
shared: the Main role's settings point at it and a transient fullscreen
view holds the handle directly. -/
def registryShared : RegistryState :=
  ⟨[("/dev/video0", 0)], [0], 1⟩

/-- The single enumerated camera of the shared-handle scenario, paired
with a succeeding open outcome for the rescan. -/
def camsShared : List (Descriptor × OpenOutcome) :=
  [(Descriptor.ofEntry ⟨0, "/dev/video0", "Integrated Camera",
      "Integrated Camera (/dev/video0)", [0]⟩, .ok)]

/-- Registry state holding a stale (silently disconnected) handle `5` for
`/dev/video0`. -/
def registryStale : RegistryState :=
  ⟨[("/dev/video0", 5)], [], 6⟩

/-- Descriptor of the Linux device `/dev/video0` as enumeration yields it. -/
def descVideo0 : Descriptor :=
  Descriptor.ofEntry ⟨0, "/dev/video0", "Cam Zero", "Cam Zero (/dev/video0)", [0]⟩

/-- Pending settings with `/dev/video0` selected as the Main camera and
both corners unassigned. -/
def slotsMain0 : Slots :=
  ⟨some 0, some "/dev/video0", none, none, none, none⟩

/-- Motion environment whose grayscale conversion and blur are the
identity, for concrete evaluation. -/
def motionEnvId : MotionEnv Gray :=
  ⟨fun f => f, fun g => g⟩

/-- A live corner recording session that has not yet created its writer. -/
def cornerActive : CornerSession :=
  ⟨true, some "captures/record_corner1_20260101_120000.mp4", none, 20⟩

/-- First entry of the node scan of `/dev/video0` and `/dev/video1` under
the trivial environment (no sysfs names, so the node path doubles as
name). -/
def scanEntryV0 : ScanEntry :=
  ⟨0, "/dev/video0", "/dev/video0", "/dev/video0 (/dev/video0)", [0]⟩

/-- Merged entry the two-node scan produces: lowest index 2 with its path,
but the name of the first-visited node `/dev/video10`. -/
def scanEntryMerged : ScanEntry :=
  ⟨2, "/dev/video2", "Camera Ten", "Camera Ten (/dev/video2)", [10, 2]⟩

/-- Probe environment in which every index opens. -/
def penvAll : Nat → ProbeOutcome := fun _ => .opened

/-- Probe environment identical to `penvAll` except that index 3 raises. -/
def penvFail3 : Nat → ProbeOutcome := fun n => if n = 3 then .raises else .opened

/-! ### Association-list lemmas -/

theorem alistGet_alistSet_self {α : Type} (k : String) (v : α) (l : List (String × α)) :
    alistGet k (alistSet k v l) = some v := by
  induction l with
  | nil => simp [alistGet, alistSet]
  | cons kv rest ih =>
    cases kv with
    | mk k' v' =>
      by_cases h : k' = k
      · simp [alistSet, alistGet, h]
      · simp [alistSet, alistGet, h, ih]

theorem alistGet_alistSet_ne {α : Type} {q k : String} (v : α) (l : List (String × α))
    (h : q ≠ k) : alistGet q (alistSet k v l) = alistGet q l := by
  induction l with
  | nil => simp [alistGet, alistSet, Ne.symm h]
  | cons kv rest ih =>
    cases kv with
    | mk k' v' =>
      by_cases hk : k' = k
      · subst hk
        simp [alistSet, alistGet, Ne.symm h]
      · simp only [alistSet, if_neg hk]
        by_cases hq : k' = q
        · simp [alistGet, hq]
        · simp [alistGet, hq, ih]

theorem alistGet_alistRemove_ne {α : Type} {q k : String} (l : List (String × α))
    (h : q ≠ k) : alistGet q (alistRemove k l) = alistGet q l := by
  induction l with
  | nil => simp [alistRemove]
  | cons kv rest ih =>
    cases kv with
    | mk k' v' =>
      by_cases hk : k' = k
      · subst hk
        simp [alistRemove, alistGet, Ne.symm h]
      · simp only [alistRemove, if_neg hk]
        by_cases hq : k' = q
        · simp [alistGet, hq]
        · simp [alistGet, hq, ih]

theorem alistGet_none_of_not_mem {α : Type} {k : String} {l : List (String × α)}
    (h : k ∉ l.map Prod.fst) : alistGet k l = none := by
  induction l with
  | nil => simp [alistGet]
  | cons kv rest ih =>
    cases kv with
    | mk k' v' =>
      simp only [List.map_cons, List.mem_cons] at h
      push_neg at h
      simp [alistGet, Ne.symm h.1, ih h.2]

theorem alistGet_alistRemove_self {α : Type} {k : String} {l : List (String × α)}
    (h : (l.map Prod.fst).Nodup) : alistGet k (alistRemove k l) = none := by
  induction l with
  | nil => simp [alistRemove, alistGet]
  | cons kv rest ih =>
    cases kv with
    | mk k' v' =>
      simp only [List.map_cons, List.nodup_cons] at h
      by_cases hk : k' = k
      · subst hk
        simpa [alistRemove] using alistGet_none_of_not_mem h.1
      · simp [alistRemove, alistGet, hk, ih h.2]

theorem mem_alistSet {α : Type} {kv : String × α} {k : String} {v : α}
    {l : List (String × α)} (h : kv ∈ alistSet k v l) : kv = (k, v) ∨ kv ∈ l := by
  induction l with
  | nil => simpa [alistSet] using h
  | cons kv' rest ih =>
    cases kv' with
    | mk k' v' =>
      by_cases hk : k' = k
      · simp only [alistSet, if_pos hk, List.mem_cons] at h
        rcases h with h | h
        · exact .inl h
        · exact .inr (List.mem_cons_of_mem _ h)
      · simp only [alistSet, if_neg hk, List.mem_cons] at h
        rcases h with h | h
        · exact .inr (h ▸ List.mem_cons_self _ _)
        · rcases ih h with h' | h'
          · exact .inl h'
          · exact .inr (List.mem_cons_of_mem _ h')

theorem alistGet_mem {α : Type} {k : String} {v : α} {l : List (String × α)}
    (h : alistGet k l = some v) : (k, v) ∈ l := by
  induction l with
  | nil => simp [alistGet] at h
  | cons kv rest ih =>
    cases kv with
    | mk k' v' =>
      by_cases hk : k' = k
      · subst hk
        have hv : v' = v := by simpa [alistGet] using h
        exact hv ▸ List.mem_cons_self _ _
      · simp only [alistGet, if_neg hk] at h
        exact List.mem_cons_of_mem _ (ih h)

/-! ### Sorting lemmas -/

theorem mem_insertStr {a x : String} {l : List String} :
    a ∈ insertStr x l ↔ a = x ∨ a ∈ l := by
  induction l with
  | nil => simp [insertStr]
  | cons y ys ih =>
    simp only [insertStr]
    split
    · simp only [List.mem_cons, ih]
      tauto
    · simp only [List.mem_cons]

theorem mem_sortStrings {a : String} {l : List String} :
    a ∈ sortStrings l ↔ a ∈ l := by
  induction l with
  | nil => simp [sortStrings]
  | cons x xs ih =>
    simp [sortStrings, mem_insertStr, ih]

theorem char_eq_of_toNat_eq (a b : Char) (h : a.toNat = b.toNat) : a = b :=
  Char.ext_iff.2 (UInt32.ext_iff.2 h)

theorem lexLt_asymm : ∀ (as bs : List Char), lexLt as bs = true → lexLt bs as = false := by
  intro as
  induction as with
  | nil =>
    intro bs h
    cases bs with
    | nil => simp [lexLt] at h
    | cons b bs => simp [lexLt]
  | cons a as ih =>
    intro bs h
    cases bs with
    | nil => simp [lexLt] at h
    | cons b bs =>
      simp only [lexLt] at h ⊢
      by_cases h1 : a.toNat < b.toNat
      · have h2 : ¬ b.toNat < a.toNat := by omega
        simp [h1, h2]
      · by_cases h2 : b.toNat < a.toNat
        · simp [h1, h2] at h
        · simp only [if_neg h1, if_neg h2] at h ⊢
          exact ih bs h

theorem lexLt_le_trans : ∀ (as bs cs : List Char),
    lexLt bs as = false → lexLt cs bs = false → lexLt cs as = false := by
  intro as
  induction as with
  | nil =>
    intro bs cs h1 h2
    simp [lexLt]
  | cons a as ih =>
    intro bs cs h1 h2
    cases bs with
    | nil => simp [lexLt] at h1
    | cons b bs' =>
      cases cs with
      | nil => simp [lexLt] at h2
      | cons c cs' =>
        simp only [lexLt] at h1 h2 ⊢
        by_cases hba : b.toNat < a.toNat
        · simp [hba] at h1
        · by_cases hcb : c.toNat < b.toNat
          · simp [hcb] at h2
          · have hca : ¬ c.toNat < a.toNat := by omega
            simp only [if_neg hba] at h1
            simp only [if_neg hcb] at h2
            simp only [if_neg hca]
            by_cases hac : a.toNat < c.toNat
            · simp [hac]
            · have hab : ¬ a.toNat < b.toNat := by omega
              have hbc : ¬ b.toNat < c.toNat := by omega
              simp only [if_neg hab] at h1
              simp only [if_neg hbc] at h2
              simp only [if_neg hac]
              exact ih bs' cs' h1 h2

theorem lexLt_le_antisymm : ∀ (as bs : List Char),
    lexLt bs as = false → lexLt as bs = false → as = bs := by
  intro as
  induction as with
  | nil =>
    intro bs h1 h2
    cases bs with
    | nil => rfl
    | cons b bs' => simp [lexLt] at h2
  | cons a as ih =>
    intro bs h1 h2
    cases bs with
    | nil => simp [lexLt] at h1
    | cons b bs' =>
      simp only [lexLt] at h1 h2
      by_cases hba : b.toNat < a.toNat
      · simp [hba] at h1
      · by_cases hab : a.toNat < b.toNat
        · simp [hab] at h2
        · simp only [if_neg hba, if_neg hab] at h1 h2
          rw [char_eq_of_toNat_eq a b (by omega), ih bs' h1 h2]

theorem strLt_asymm {a b : String} (h : strLt a b = true) : strLt b a = false :=
  lexLt_asymm a.data b.data h

theorem strLt_le_trans {a b c : String} (h1 : strLt b a = false) (h2 : strLt c b = false) :
    strLt c a = false :=
  lexLt_le_trans a.data b.data c.data h1 h2

theorem strLt_le_antisymm {a b : String} (h1 : strLt b a = false) (h2 : strLt a b = false) :
    a = b := by
  have hd := lexLt_le_antisymm a.data b.data h1 h2
  cases a
  cases b
  exact congrArg String.mk hd

instance : IsAntisymm String (fun a b => strLt b a = false) :=
  ⟨fun _ _ h1 h2 => strLt_le_antisymm h1 h2⟩

theorem perm_insertStr (x : String) (l : List String) : (insertStr x l).Perm (x :: l) := by
  induction l with
  | nil => exact List.Perm.refl _
  | cons y ys ih =>
    simp only [insertStr]
    split
    · exact (ih.cons y).trans (List.Perm.swap x y ys)
    · exact List.Perm.refl _

theorem perm_sortStrings (l : List String) : (sortStrings l).Perm l := by
  induction l with
  | nil => exact List.Perm.refl _
  | cons x xs ih => exact (perm_insertStr x (sortStrings xs)).trans (ih.cons x)

theorem sorted_insertStr (x : String) (l : List String)
    (h : l.Pairwise (fun a b => strLt b a = false)) :
    (insertStr x l).Pairwise (fun a b => strLt b a = false) := by
  induction l with
  | nil => simp [insertStr]
  | cons y ys ih =>
    rw [List.pairwise_cons] at h
    simp only [insertStr]
    split
    · rename_i hlt
      rw [List.pairwise_cons]
      refine ⟨?_, ih h.2⟩
      intro b hb
      rcases mem_insertStr.1 hb with rfl | hb'
      · exact strLt_asymm hlt
      · exact h.1 b hb'
    · rename_i hge
      have hyx : strLt y x = false := by
        cases hv : strLt y x with
        | false => rfl
        | true => exact absurd hv hge
      rw [List.pairwise_cons]
      constructor
      · intro b hb
        rcases List.mem_cons.1 hb with rfl | hb'
        · exact hyx
        · exact strLt_le_trans hyx (h.1 b hb')
      · exact List.pairwise_cons.2 h

theorem sorted_sortStrings (l : List String) :
    (sortStrings l).Pairwise (fun a b => strLt b a = false) := by
  induction l with
  | nil => simp [sortStrings]
  | cons x xs ih => exact sorted_insertStr x (sortStrings xs) ih

theorem sortStrings_eq_of_perm {l l' : List String} (h : l.Perm l') :
    sortStrings l = sortStrings l' :=
  List.eq_of_perm_of_sorted
    ((perm_sortStrings l).trans (h.trans (perm_sortStrings l').symm))
    (sorted_sortStrings l) (sorted_sortStrings l')

theorem mem_insertByIdx {a x : ScanEntry} {l : List ScanEntry} :
    a ∈ insertByIdx x l ↔ a = x ∨ a ∈ l := by
  induction l with
  | nil => simp [insertByIdx]
  | cons y ys ih =>
    simp only [insertByIdx]
    split
    · simp only [List.mem_cons, ih]
      tauto
    · simp only [List.mem_cons]

theorem mem_sortByIdx {a : ScanEntry} {l : List ScanEntry} :
    a ∈ sortByIdx l ↔ a ∈ l := by
  induction l with
  | nil => simp [sortByIdx]
  | cons x xs ih =>
    simp [sortByIdx, mem_insertByIdx, ih]

theorem pairwise_insertByIdx {x : ScanEntry} {l : List ScanEntry}
    (h : l.Pairwise (fun a b => a.index ≤ b.index)) :
    (insertByIdx x l).Pairwise (fun a b => a.index ≤ b.index) := by
  induction l with
  | nil => simp [insertByIdx]
  | cons y ys ih =>
    rw [List.pairwise_cons] at h
    simp only [insertByIdx]
    split
    · rename_i hlt
      rw [List.pairwise_cons]
      refine ⟨?_, ih h.2⟩
      intro b hb
      rcases mem_insertByIdx.1 hb with rfl | hb'
      · exact Nat.le_of_lt hlt
      · exact h.1 b hb'
    · rename_i hge
      rw [List.pairwise_cons]
      refine ⟨?_, List.pairwise_cons.2 h⟩
      intro b hb
      rcases List.mem_cons.1 hb with rfl | hb'
      · exact Nat.le_of_not_lt hge
      · exact Nat.le_trans (Nat.le_of_not_lt hge) (h.1 b hb')

theorem pairwise_sortByIdx (l : List ScanEntry) :
    (sortByIdx l).Pairwise (fun a b => a.index ≤ b.index) := by
  induction l with
  | nil => simp [sortByIdx]
  | cons x xs ih => exact pairwise_insertByIdx ih

/-! ### Scan fold invariants -/

theorem scanVisit_snd_cases (env : ScanEnv) (devices : List (String × ScanEntry))
    (node : String) (kv : String × ScanEntry) (hkv : kv ∈ scanVisit env devices node) :
    kv.2 ∈ devices.map Prod.snd ∨
    ∃ idx, parseVideoIdx node = some idx ∧
      (kv.2 = newEntry env node idx ∨
       ∃ e, e ∈ devices.map Prod.snd ∧ kv.2 = mergeEntry e node idx) := by
  unfold scanVisit at hkv
  split at hkv
  · exact .inl (List.mem_map_of_mem Prod.snd hkv)
  · rename_i idx hp
    split at hkv
    · rename_i hg
      rcases mem_alistSet hkv with h | h
      · exact .inr ⟨idx, hp, .inl (by rw [h])⟩
      · exact .inl (List.mem_map_of_mem Prod.snd h)
    · rename_i e hg
      rcases mem_alistSet hkv with h | h
      · exact .inr ⟨idx, hp, .inr ⟨e, List.mem_map_of_mem Prod.snd (alistGet_mem hg), by rw [h]⟩⟩
      · exact .inl (List.mem_map_of_mem Prod.snd h)

theorem foldl_scanVisit_inv (env : ScanEnv) (R : ScanEntry → Prop) :
    ∀ (L : List String) (devices : List (String × ScanEntry)),
    (∀ kv ∈ devices, R kv.2) →
    (∀ node ∈ L, ∀ idx, parseVideoIdx node = some idx → R (newEntry env node idx)) →
    (∀ node ∈ L, ∀ idx e, parseVideoIdx node = some idx → R e → R (mergeEntry e node idx)) →
    ∀ kv ∈ L.foldl (scanVisit env) devices, R kv.2 := by
  intro L
  induction L with
  | nil =>
    intro devices hdev _ _ kv hkv
    exact hdev kv hkv
  | cons node L ih =>
    intro devices hdev hnew hmerge kv hkv
    refine ih (scanVisit env devices node) ?_
      (fun n hn => hnew n (List.mem_cons_of_mem _ hn))
      (fun n hn => hmerge n (List.mem_cons_of_mem _ hn)) kv hkv
    intro kv' hkv'
    rcases scanVisit_snd_cases env devices node kv' hkv' with hmem | ⟨idx, hp, hcase⟩
    · obtain ⟨kv'', hkv'', heq⟩ := List.mem_map.1 hmem
      exact heq ▸ hdev kv'' hkv''
    · rcases hcase with he | ⟨e, hemem, he⟩
      · rw [he]
        exact hnew node (List.mem_cons_self _ _) idx hp
      · rw [he]
        obtain ⟨kv'', h1, h2⟩ := List.mem_map.1 hemem
        exact hmerge node (List.mem_cons_self _ _) idx e hp (h2 ▸ hdev kv'' h1)

theorem scanLinux_inv (env : ScanEnv) (nodes : List String) (R : ScanEntry → Prop)
    (hnew : ∀ node ∈ nodes, ∀ idx, parseVideoIdx node = some idx → R (newEntry env node idx))
    (hmerge : ∀ node ∈ nodes, ∀ idx e, parseVideoIdx node = some idx → R e →
      R (mergeEntry e node idx)) :
    ∀ e ∈ scanLinux env nodes, R e := by
  intro e he
  unfold scanLinux at he
  rw [mem_sortByIdx] at he
  obtain ⟨kv, hkv, heq⟩ := List.mem_map.1 he
  refine heq ▸ foldl_scanVisit_inv env R (sortStrings nodes) [] (by simp)
    (fun n hn => hnew n (mem_sortStrings.1 hn))
    (fun n hn => hmerge n (mem_sortStrings.1 hn)) kv hkv

/-! ### Registry step lemmas -/

theorem probeEntry_index (i : Nat) : (probeEntry i).index = i := rfl

theorem openOne_some_open (o : OpenOutcome) (t : Target) (st : RegistryState) (h : Nat)
    (hh : (openOne o t st).1 = some h) : h ∈ (openOne o t st).2.openHandles := by
  cases t <;> cases o <;> simp_all [openOne]

theorem openOne_none_frame (o : OpenOutcome) (t : Target) (st : RegistryState)
    (hh : (openOne o t st).1 = none) :
    (openOne o t st).2.captures = st.captures ∧
    (openOne o t st).2.openHandles = st.openHandles := by
  cases t <;> cases o <;> simp_all [openOne]

theorem openOne_captures (o : OpenOutcome) (t : Target) (st : RegistryState) :
    (openOne o t st).2.captures = st.captures := by
  cases t <;> cases o <;> simp [openOne]

theorem openOne_mono (o : OpenOutcome) (t : Target) (st : RegistryState) (h : Nat)
    (hm : h ∈ st.openHandles) : h ∈ (openOne o t st).2.openHandles := by
  cases t <;> cases o <;> simp [openOne, hm]

theorem openAllStep_mono (st : RegistryState) (p : Descriptor × OpenOutcome) (h : Nat)
    (hm : h ∈ st.openHandles) : h ∈ (openAllStep st p).openHandles := by
  unfold openAllStep
  split
  · exact hm
  · split
    · rename_i h' st' heq
      have hmono := openOne_mono p.2 p.1.target st h hm
      rw [heq] at hmono
      exact hmono
    · rename_i st' heq
      have hmono := openOne_mono p.2 p.1.target st h hm
      rw [heq] at hmono
      exact hmono

theorem openAll_mono (cams : List (Descriptor × OpenOutcome)) (st : RegistryState) (h : Nat)
    (hm : h ∈ st.openHandles) : h ∈ (openAll cams st).openHandles := by
  induction cams generalizing st with
  | nil => exact hm
  | cons p ps ih => exact ih (openAllStep st p) (openAllStep_mono st p h hm)

theorem openAllStep_lookup (st : RegistryState) (p : Descriptor × OpenOutcome)
    (k : String) (h : Nat)
    (hl : alistGet k (openAllStep st p).captures = some h) :
    alistGet k st.captures = some h ∨ h ∈ (openAllStep st p).openHandles := by
  cases hg : alistGet (keyOfTarget p.1.target) st.captures with
  | some c =>
    simp only [openAllStep, hg] at hl ⊢
    exact .inl hl
  | none =>
    cases ho : openOne p.2 p.1.target st with
    | mk c st' =>
      cases c with
      | some h' =>
        simp only [openAllStep, hg, ho] at hl ⊢
        by_cases hk : k = keyOfTarget p.1.target
        · subst hk
          rw [alistGet_alistSet_self] at hl
          have hop := openOne_some_open p.2 p.1.target st h' (by rw [ho])
          rw [ho] at hop
          exact .inr (Option.some_inj.1 hl ▸ hop)
        · rw [alistGet_alistSet_ne _ _ hk] at hl
          have hcapt : st'.captures = st.captures := by
            have := openOne_captures p.2 p.1.target st
            rw [ho] at this
            exact this
          rw [hcapt] at hl
          exact .inl hl
      | none =>
        simp only [openAllStep, hg, ho] at hl ⊢
        have hcapt : st'.captures = st.captures := by
          have := openOne_captures p.2 p.1.target st
          rw [ho] at this
          exact this
        rw [hcapt] at hl
        exact .inl hl

/-! ### Claim C1 -/

/-- C1: the claim states that clearing or reassigning one role never
closes a capture handle still referenced by another role.  The code
refutes it: every role clear/reassignment runs `apply_settings`, whose
registry effect (lines 250-253 of `src/main_window.py`) is `release_all`
followed by `open_all`, closing *every* handle — including handle `0`
here, which a transient fullscreen view still holds for the device that
Main is being cleared away from — and replacing it by a fresh handle `1`.
The shared handle is therefore closed and unreadable after the clear,
contradicting the claim (and the spec's stated ownership rule), which is
why this is recorded as a code bug rather than confirmed. -/
theorem claim1_rescan_closes_shared_handle :
    registryShared.isOpened 0 = true ∧
    alistGet "/dev/video0" registryShared.captures = some 0 ∧
    (applySettingsRescan camsShared registryShared).isOpened 0 = false ∧
    alistGet "/dev/video0" (applySettingsRescan camsShared registryShared).captures = some 1 := by
  decide

/-! ### Claim C2 -/

/-- C2 counterexample: for a descriptor produced by the fallback index
probe (here index 3, whose `path` is the string `"3"`), the identity key
resolved from the descriptor or its path string is `"3"`, while the key
resolved from the numeric index is `"/dev/video3"` — so the claim's
"same value whether addressed by descriptor, path string, or numeric
index" fails on enumeration output. -/
theorem claim2_counterexample :
    scanCameras false scanEnvTrivial [] penvOnly3 = [probeEntry 3] ∧
    keySrc (.desc (Descriptor.ofEntry (probeEntry 3))) = "3" ∧
    keySrc (.str "3") = "3" ∧
    keySrc (.int 3) = "/dev/video3" ∧
    keySrc (.desc (Descriptor.ofEntry (probeEntry 3))) ≠ keySrc (.int 3) := by
  decide

/-- C2 (amended): for every descriptor produced by the platform node scan
from canonical `/dev/videoN` node names, the registry's identity key
resolves to the same value — the device path — whether the device is
addressed by its descriptor, its path string, or its numeric index. -/
theorem claim2_identity_key_node_scan (env : ScanEnv) (nodes : List String)
    (hcanon : ∀ node ∈ nodes, ∃ k : Nat, parseVideoIdx node = some k ∧
      node = "/dev/video" ++ toString k) :
    ∀ e ∈ scanLinux env nodes,
      keySrc (.desc (Descriptor.ofEntry e)) = e.path ∧
      keySrc (.str e.path) = e.path ∧
      keySrc (.int (e.index : Int)) = e.path := by
  have hinv : ∀ e ∈ scanLinux env nodes,
      ∃ node ∈ nodes, e.path = node ∧ parseVideoIdx node = some e.index := by
    refine scanLinux_inv env nodes _ ?_ ?_
    · intro node hn idx hp
      exact ⟨node, hn, rfl, hp⟩
    · intro node hn idx e hp he
      obtain ⟨n', hn', hp', hi'⟩ := he
      unfold mergeEntry
      by_cases hlt : idx < e.index
      · rw [if_pos hlt]
        exact ⟨node, hn, rfl, hp⟩
      · rw [if_neg hlt]
        exact ⟨n', hn', hp', hi'⟩
  intro e he
  obtain ⟨node, hn, hpath, hidx⟩ := hinv e he
  obtain ⟨k, hpk, hnode⟩ := hcanon node hn
  rw [hidx] at hpk
  have hek : e.index = k := Option.some_inj.1 hpk
  have hpe : e.path = "/dev/video" ++ toString e.index := by
    rw [hpath, hnode, hek]
  have hne : e.path ≠ "" := by
    rw [hpe]
    intro hcontra
    have hlen := congrArg String.length hcontra
    rw [String.length_append] at hlen
    simp at hlen
    exact absurd hlen.1 (by decide)
  refine ⟨?_, rfl, ?_⟩
  · simp [keySrc, Descriptor.ofEntry, hne]
  · show "/dev/video" ++ toString ((e.index : Nat) : Int) = e.path
    have htos : toString ((e.index : Nat) : Int) = toString e.index := rfl
    rw [htos, hpe]

/-- C2 amended-claim witness: the first node-scan entry of a concrete
two-node scan resolves its identity key consistently across all three
addressing modes. -/
theorem claim2_identity_key_node_scan_witness :
    keySrc (.desc (Descriptor.ofEntry scanEntryV0)) = scanEntryV0.path ∧
    keySrc (.str scanEntryV0.path) = scanEntryV0.path ∧
    keySrc (.int (scanEntryV0.index : Int)) = scanEntryV0.path := by
  refine claim2_identity_key_node_scan scanEnvTrivial ["/dev/video0", "/dev/video1"]
    ?_ scanEntryV0 (by decide)
  intro node hn
  rcases List.mem_cons.1 hn with rfl | hn
  · exact ⟨0, by decide, by decide⟩
  rcases List.mem_cons.1 hn with rfl | hn
  · exact ⟨1, by decide, by decide⟩
  · exact absurd hn (List.not_mem_nil _)

/-! ### Claim C3 -/

/-- C3: `get` returns the stored handle when it is open; when the stored
handle reports itself no longer open, `get` releases it, attempts exactly
one reopen (the handle counter advances by at most one), stores and
returns the fresh handle on success, and on reopen failure leaves the
stale entry removed from the registry and returns `none` — `getCap` is a
total function, so no exception escapes. -/
theorem claim3_get_self_heals (o : OpenOutcome) (src : Src) (st : RegistryState) (cap : Nat)
    (hwf : (st.captures.map Prod.fst).Nodup)
    (hstored : alistGet (keySrc src) st.captures = some cap) :
    (st.isOpened cap = true → getCap o src st = (some cap, st)) ∧
    (st.isOpened cap = false →
      (getCap o src st).2.nextHandle ≤ st.nextHandle + 1 ∧
      (o = .ok → targetOf src ≠ .null →
        getCap o src st =
          (some st.nextHandle,
            ⟨alistSet (keySrc src) st.nextHandle (alistRemove (keySrc src) st.captures),
             st.nextHandle :: st.openHandles.erase cap,
             st.nextHandle + 1⟩) ∧
        alistGet (keySrc src) (getCap o src st).2.captures = some st.nextHandle ∧
        (getCap o src st).2.isOpened st.nextHandle = true) ∧
      ((getCap o src st).1 = none →
        alistGet (keySrc src) (getCap o src st).2.captures = none)) := by
  constructor
  · intro hop
    simp [getCap, hstored, hop]
  · intro hcl
    have hclm : cap ∉ st.openHandles := by
      simpa [RegistryState.isOpened] using hcl
    refine ⟨?_, ?_, ?_⟩
    · cases ht : targetOf src <;> cases o <;>
        simp [getCap, hstored, RegistryState.isOpened, hclm, openAndStore, openOne, ht]
    · intro ho hnull
      subst ho
      cases ht : targetOf src with
      | null => exact absurd ht hnull
      | int n =>
        simp [getCap, hstored, hclm, openAndStore, openOne, ht,
          RegistryState.isOpened, alistGet_alistSet_self]
      | str s =>
        simp [getCap, hstored, hclm, openAndStore, openOne, ht,
          RegistryState.isOpened, alistGet_alistSet_self]
    · intro hnone
      cases ht : targetOf src <;> cases o <;>
        simp_all [getCap, hstored, RegistryState.isOpened, hclm, openAndStore, openOne, ht,
          alistGet_alistRemove_self hwf]

/-- C3 witness: on a registry holding a stale handle `5` for
`/dev/video0`, `get` with a succeeding reopen returns the fresh handle
`6`, now stored and open. -/
theorem claim3_witness :
    (registryStale.captures.map Prod.fst).Nodup ∧
    alistGet (keySrc (.int 0)) registryStale.captures = some 5 ∧
    registryStale.isOpened 5 = false ∧
    getCap .ok (.int 0) registryStale =
      (some registryStale.nextHandle,
        ⟨alistSet (keySrc (.int 0)) registryStale.nextHandle
           (alistRemove (keySrc (.int 0)) registryStale.captures),
         registryStale.nextHandle :: registryStale.openHandles.erase 5,
         registryStale.nextHandle + 1⟩) := by
  refine ⟨by decide, by decide, by decide, ?_⟩
  exact (((claim3_get_self_heals .ok (.int 0) registryStale 5 (by decide)
    (by decide)).2 (by decide)).2.1 rfl (by decide)).1

/-! ### Claim C10 -/

/-- C10: handles are verified open at store time: the internal open
operation is total (never raises), yields only handles that report open,
and changes nothing when it fails (a capture failing its open check is
released, not stored); consequently any key whose stored handle changed
under `get` or `open_all` maps to a handle open in the resulting state
(for `get` under the registry's no-duplicate-keys invariant, which the
Python dict guarantees). -/
theorem claim10_only_open_handles_stored :
    (∀ (o : OpenOutcome) (t : Target) (st : RegistryState) (h : Nat),
      (openOne o t st).1 = some h → h ∈ (openOne o t st).2.openHandles) ∧
    (∀ (o : OpenOutcome) (t : Target) (st : RegistryState),
      (openOne o t st).1 = none →
        (openOne o t st).2.captures = st.captures ∧
        (openOne o t st).2.openHandles = st.openHandles) ∧
    (∀ (o : OpenOutcome) (src : Src) (st : RegistryState) (k : String) (h : Nat),
      (st.captures.map Prod.fst).Nodup →
      alistGet k (getCap o src st).2.captures = some h →
      alistGet k st.captures = some h ∨ h ∈ (getCap o src st).2.openHandles) ∧
    (∀ (cams : List (Descriptor × OpenOutcome)) (st : RegistryState) (k : String) (h : Nat),
      alistGet k (openAll cams st).captures = some h →
      alistGet k st.captures = some h ∨ h ∈ (openAll cams st).openHandles) := by
  refine ⟨openOne_some_open, openOne_none_frame, ?_, ?_⟩
  · intro o src st k h hwf hl
    cases hg : alistGet (keySrc src) st.captures with
    | none =>
      simp only [getCap, hg] at hl ⊢
      cases ho : openOne o (targetOf src) st with
      | mk c st' =>
        cases c with
        | some h' =>
          simp only [openAndStore, ho] at hl ⊢
          by_cases hk : k = keySrc src
          · subst hk
            rw [alistGet_alistSet_self] at hl
            have hop := openOne_some_open o (targetOf src) st h' (by rw [ho])
            rw [ho] at hop
            exact .inr (Option.some_inj.1 hl ▸ hop)
          · rw [alistGet_alistSet_ne _ _ hk] at hl
            have hcapt : st'.captures = st.captures := by
              have := openOne_captures o (targetOf src) st
              rw [ho] at this
              exact this
            rw [hcapt] at hl
            exact .inl hl
        | none =>
          simp only [openAndStore, ho] at hl ⊢
          have hcapt : st'.captures = st.captures := by
            have := openOne_captures o (targetOf src) st
            rw [ho] at this
            exact this
          rw [hcapt] at hl
          exact .inl hl
    | some cap =>
      by_cases hop : st.isOpened cap = true
      · simp only [getCap, hg, if_pos hop] at hl ⊢
        exact .inl hl
      · rw [Bool.not_eq_true] at hop
        simp only [getCap, hg, hop, Bool.false_eq_true, if_false] at hl ⊢
        cases ho : openOne o (targetOf src)
            ⟨alistRemove (keySrc src) st.captures, st.openHandles.erase cap,
             st.nextHandle⟩ with
        | mk c st' =>
          cases c with
          | some h' =>
            simp only [openAndStore, ho] at hl ⊢
            by_cases hk : k = keySrc src
            · subst hk
              rw [alistGet_alistSet_self] at hl
              have hopn := openOne_some_open o (targetOf src)
                ⟨alistRemove (keySrc src) st.captures, st.openHandles.erase cap,
                 st.nextHandle⟩ h' (by rw [ho])
              rw [ho] at hopn
              exact .inr (Option.some_inj.1 hl ▸ hopn)
            · rw [alistGet_alistSet_ne _ _ hk] at hl
              have hcapt : st'.captures = alistRemove (keySrc src) st.captures := by
                have := openOne_captures o (targetOf src)
                  ⟨alistRemove (keySrc src) st.captures, st.openHandles.erase cap,
                   st.nextHandle⟩
                rw [ho] at this
                exact this
              rw [hcapt, alistGet_alistRemove_ne _ hk] at hl
              exact .inl hl
          | none =>
            simp only [openAndStore, ho] at hl ⊢
            have hcapt : st'.captures = alistRemove (keySrc src) st.captures := by
              have := openOne_captures o (targetOf src)
                ⟨alistRemove (keySrc src) st.captures, st.openHandles.erase cap,
                 st.nextHandle⟩
              rw [ho] at this
              exact this
            rw [hcapt] at hl
            by_cases hk : k = keySrc src
            · subst hk
              rw [alistGet_alistRemove_self hwf] at hl
              exact absurd hl (by simp)
            · rw [alistGet_alistRemove_ne _ hk] at hl
              exact .inl hl
  · intro cams
    induction cams with
    | nil =>
      intro st k h hl
      exact .inl hl
    | cons p ps ih =>
      intro st k h hl
      have hl' : alistGet k (openAll ps (openAllStep st p)).captures = some h := hl
      rcases ih (openAllStep st p) k h hl' with hmid | hopen
      · rcases openAllStep_lookup st p k h hmid with hpre | hopn2
        · exact .inl hpre
        · exact .inr (openAll_mono ps (openAllStep st p) h hopn2)
      · exact .inr hopen

/-- C10 witness: applying the stored-handles-are-open facts at concrete
inputs — a successful open yields an open handle, a failed open changes
nothing, and `get`/`open_all` insertions are open in the resulting
state. -/
theorem claim10_witness :
    (openOne .ok (.int 0) registryStale).1 = some 6 ∧
    6 ∈ (openOne .ok (.int 0) registryStale).2.openHandles ∧
    (openOne .failClosed (.int 0) registryStale).1 = none ∧
    (openOne .failClosed (.int 0) registryStale).2.captures = registryStale.captures ∧
    (alistGet "/dev/video0" registryStale.captures = some 6 ∨
      6 ∈ (getCap .ok (.int 0) registryStale).2.openHandles) := by
  refine ⟨by decide, ?_, by decide, ?_, ?_⟩
  · exact claim10_only_open_handles_stored.1 .ok (.int 0) registryStale 6 (by decide)
  · exact (claim10_only_open_handles_stored.2.1 .failClosed (.int 0) registryStale (by decide)).1
  · exact claim10_only_open_handles_stored.2.2.1 .ok (.int 0) registryStale "/dev/video0" 6
      (by decide) (by decide)

/-! ### Slot lemmas -/

theorem getIdx_setSlot (p : Slots) (s s' : Slot) (i : Option Int) (pth : Option String) :
    (p.setSlot s i pth).getIdx s' = if s' = s then i else p.getIdx s' := by
  cases s <;> cases s' <;> simp [Slots.setSlot, Slots.getIdx]

theorem getPath_setSlot (p : Slots) (s s' : Slot) (i : Option Int) (pth : Option String) :
    (p.setSlot s i pth).getPath s' = if s' = s then pth else p.getPath s' := by
  cases s <;> cases s' <;> simp [Slots.setSlot, Slots.getPath]

theorem mem_otherSlots {s s' : Slot} : s' ∈ otherSlots s ↔ s' ≠ s := by
  cases s <;> cases s' <;> decide

theorem slotClash_none_left (i2 : Option Int) (p2 : Option String) :
    slotClash none none i2 p2 = false := by
  cases i2 <;> cases p2 <;> simp [slotClash]

theorem slotClash_none_right (i1 : Option Int) (p1 : Option String) :
    slotClash i1 p1 none none = false := by
  cases i1 <;> cases p1 <;> simp [slotClash]

theorem clash_storedIdx_left (c : Descriptor) (i2 : Option Int) (p2 : Option String)
    (h : slotClash (storedIdx c) c.path i2 p2 = true) : conflictsWith c i2 p2 = true := by
  unfold slotClash at h
  rw [Bool.or_eq_true] at h
  rcases h with h | h
  · cases hcp : c.path with
    | none => cases p2 <;> simp [hcp] at h
    | some s =>
      cases p2 with
      | none => simp [hcp] at h
      | some t =>
        simp only [hcp, Bool.and_eq_true, decide_eq_true_eq] at h
        unfold conflictsWith
        rw [hcp, Bool.or_eq_true]
        left
        rw [Bool.and_eq_true, decide_eq_true_eq, decide_eq_true_eq]
        exact ⟨h.1, by rw [h.2]⟩
  · cases hci : c.index with
    | none =>
      have hsi : storedIdx c = none := by simp [storedIdx, hci]
      cases i2 <;> simp [hsi] at h
    | some i =>
      by_cases hge : 0 ≤ i
      · have hsi : storedIdx c = some i := by simp [storedIdx, hci, hge]
        cases i2 with
        | none => simp [hsi] at h
        | some m =>
          simp only [hsi, decide_eq_true_eq] at h
          simp [conflictsWith, hci, h]
      · have hsi : storedIdx c = none := by simp [storedIdx, hci, hge]
        cases i2 <;> simp [hsi] at h

theorem clash_storedIdx_right (c : Descriptor) (i1 : Option Int) (p1 : Option String)
    (h : slotClash i1 p1 (storedIdx c) c.path = true) : conflictsWith c i1 p1 = true := by
  unfold slotClash at h
  rw [Bool.or_eq_true] at h
  rcases h with h | h
  · cases hcp : c.path with
    | none => cases p1 <;> simp [hcp] at h
    | some s =>
      cases p1 with
      | none => simp [hcp] at h
      | some t =>
        simp only [hcp, Bool.and_eq_true, decide_eq_true_eq] at h
        unfold conflictsWith
        rw [hcp, Bool.or_eq_true]
        left
        rw [Bool.and_eq_true, decide_eq_true_eq, decide_eq_true_eq]
        exact ⟨h.2 ▸ h.1, by rw [h.2]⟩
  · cases hci : c.index with
    | none =>
      have hsi : storedIdx c = none := by simp [storedIdx, hci]
      cases i1 <;> simp [hsi] at h
    | some i =>
      by_cases hge : 0 ≤ i
      · have hsi : storedIdx c = some i := by simp [storedIdx, hci, hge]
        cases i1 with
        | none => simp [hsi] at h
        | some m =>
          simp only [hsi, decide_eq_true_eq] at h
          simp [conflictsWith, hci, h]
      · have hsi : storedIdx c = none := by simp [storedIdx, hci, hge]
        cases i1 <;> simp [hsi] at h

/-! ### Claim C4 -/

/-- C4: the Main/Corner1/Corner2 exclusivity rule lives in the caller, not
the registry: the registry happily serves the same open handle for the
same descriptor to any number of roles; `_select_slot` rejects a selection
whose path or index already occupies another slot, leaving the pending
settings unchanged; and any `_select_slot` call — rejected, clearing, or
completed — preserves pairwise distinctness of the three slots. -/
theorem claim4_exclusivity_enforced_by_caller :
    (∀ (o o' : OpenOutcome) (src : Src) (st : RegistryState) (h : Nat),
      alistGet (keySrc src) st.captures = some h → st.isOpened h = true →
      getCap o src st = (some h, st) ∧ getCap o' src st = (some h, st)) ∧
    (∀ (p : Slots) (slot : Slot) (c : Descriptor) (other : Slot),
      other ∈ otherSlots slot →
      conflictsWith c (p.getIdx other) (p.getPath other) = true →
      selectSlot slot (some c) p = (p, true)) ∧
    (∀ (p : Slots) (slot : Slot) (cam : Option Descriptor),
      slotsPairwiseDistinct p → slotsPairwiseDistinct (selectSlot slot cam p).1) := by
  refine ⟨?_, ?_, ?_⟩
  · intro o o' src st h hstored hop
    constructor <;> simp [getCap, hstored, hop]
  · intro p slot c other hmem hc
    have hany : ((otherSlots slot).any
        fun o' => conflictsWith c (p.getIdx o') (p.getPath o')) = true :=
      List.any_eq_true.2 ⟨other, hmem, hc⟩
    simp [selectSlot, hany]
  · intro p slot cam hdist
    cases cam with
    | none =>
      intro s1 s2 hne
      simp only [selectSlot]
      rw [getIdx_setSlot, getIdx_setSlot, getPath_setSlot, getPath_setSlot]
      by_cases h1 : s1 = slot <;> by_cases h2 : s2 = slot
      · exact absurd (h1.trans h2.symm) hne
      · simp only [if_pos h1, if_neg h2]
        exact slotClash_none_left _ _
      · simp only [if_neg h1, if_pos h2]
        exact slotClash_none_right _ _
      · simp only [if_neg h1, if_neg h2]
        exact hdist s1 s2 hne
    | some c =>
      by_cases hany : ((otherSlots slot).any
          fun o' => conflictsWith c (p.getIdx o') (p.getPath o')) = true
      · simpa [selectSlot, hany] using hdist
      · have hnoc : ∀ o' ∈ otherSlots slot,
            conflictsWith c (p.getIdx o') (p.getPath o') = false := by
          intro o' ho'
          rcases Bool.eq_false_or_eq_true
              (conflictsWith c (p.getIdx o') (p.getPath o')) with hv | hv
          · exact absurd (List.any_eq_true.2 ⟨o', ho', hv⟩) hany
          · exact hv
        intro s1 s2 hne
        have hres : (selectSlot slot (some c) p).1 = p.setSlot slot (storedIdx c) c.path := by
          simp [selectSlot, hany]
        rw [hres, getIdx_setSlot, getIdx_setSlot, getPath_setSlot, getPath_setSlot]
        by_cases h1 : s1 = slot <;> by_cases h2 : s2 = slot
        · exact absurd (h1.trans h2.symm) hne
        · simp only [if_pos h1, if_neg h2]
          rcases Bool.eq_false_or_eq_true
              (slotClash (storedIdx c) c.path (p.getIdx s2) (p.getPath s2)) with hv | hv
          · have hcf := hnoc s2 (mem_otherSlots.2 (fun hq => h2 hq))
            have hcc := clash_storedIdx_left c _ _ hv
            rw [hcf] at hcc
            exact Bool.noConfusion hcc
          · exact hv
        · simp only [if_neg h1, if_pos h2]
          rcases Bool.eq_false_or_eq_true
              (slotClash (p.getIdx s1) (p.getPath s1) (storedIdx c) c.path) with hv | hv
          · have hcf := hnoc s1 (mem_otherSlots.2 (fun hq => h1 hq))
            have hcc := clash_storedIdx_right c _ _ hv
            rw [hcf] at hcc
            exact Bool.noConfusion hcc
          · exact hv
        · simp only [if_neg h1, if_neg h2]
          exact hdist s1 s2 hne

/-- C4 witness: with `/dev/video0` as the Main selection, the registry
still serves it to another caller, an exclusivity-violating Corner-1
selection is rejected with pending settings untouched, and the slots stay
pairwise distinct. -/
theorem claim4_witness :
    getCap .ok (.int 0) registryShared = (some 0, registryShared) ∧
    conflictsWith descVideo0 (slotsMain0.getIdx .main) (slotsMain0.getPath .main) = true ∧
    selectSlot .corner1 (some descVideo0) slotsMain0 = (slotsMain0, true) ∧
    slotsPairwiseDistinct (selectSlot .corner1 (some descVideo0) slotsMain0).1 := by
  refine ⟨?_, by decide, ?_, ?_⟩
  · exact (claim4_exclusivity_enforced_by_caller.1 .ok .ok (.int 0) registryShared 0
      (by decide) (by decide)).1
  · exact claim4_exclusivity_enforced_by_caller.2.1 slotsMain0 .corner1 descVideo0 .main
      (by decide) (by decide)
  · refine claim4_exclusivity_enforced_by_caller.2.2 slotsMain0 .corner1 (some descVideo0) ?_
    unfold slotsPairwiseDistinct
    decide

/-! ### Claim C5 -/

/-- C5: with motion detection enabled, the frame is converted to grayscale
and blurred (the two cv2 calls are the opaque `MotionEnv` collaborators);
with a retained frame present, motion is declared exactly when more than
5000 pixels of the absolute difference exceed the threshold 25 (binarized
to 255); the retained frame is always replaced by the current blurred
grayscale, including on the first frame where no comparison occurs and
motion is false; disabling detection clears the retained frame, and the
first frame after re-enabling never reports motion. -/
theorem claim5_motion_detection {F : Type} (env : MotionEnv F) :
    (∀ (p : Gray) (prev : Option Gray) (f : F), prev = some p →
      motionStep env true prev f =
        (decide (5000 < countNonZero (thresh25 (absdiff p (env.blur5 (env.toGray f))))),
         some (env.blur5 (env.toGray f)))) ∧
    (∀ f : F, motionStep env true none f = (false, some (env.blur5 (env.toGray f)))) ∧
    (∀ (prev : Option Gray) (f : F), motionStep env false prev f = (false, none)) ∧
    (∀ prev : Option Gray, toggleMotion false prev = (false, none)) ∧
    (∀ (prev : Option Gray) (f : F),
      (motionStep env true (toggleMotion false prev).2 f).1 = false) := by
  refine ⟨?_, ?_, ?_, ?_, ?_⟩
  · intro p prev f hp
    subst hp
    simp [motionStep]
  · intro f
    simp [motionStep]
  · intro prev f
    simp [motionStep]
  · intro prev
    simp [toggleMotion]
  · intro prev f
    simp [motionStep, toggleMotion]

/-- C5 witness: concrete runs of the motion step with identity conversion
collaborators — a comparison against a retained frame, and a cold first
frame after a reset. -/
theorem claim5_witness :
    motionStep motionEnvId true (some [0, 0]) [30, 30] =
      (decide (5000 < countNonZero (thresh25 (absdiff [0, 0]
        (motionEnvId.blur5 (motionEnvId.toGray [30, 30]))))),
       some (motionEnvId.blur5 (motionEnvId.toGray [30, 30]))) ∧
    motionStep motionEnvId true none [7] =
      (false, some (motionEnvId.blur5 (motionEnvId.toGray [7]))) ∧
    (motionStep motionEnvId true (toggleMotion false (some [9])).2 [7]).1 = false := by
  exact ⟨(claim5_motion_detection motionEnvId).1 [0, 0] (some [0, 0]) [30, 30] rfl,
    (claim5_motion_detection motionEnvId).2.1 [7],
    (claim5_motion_detection motionEnvId).2.2.2.2 (some [9]) [7]⟩

/-! ### Claim C6 -/

/-- C6: a corner recording session opens its video writer lazily on the
first delivered frame, from that frame's dimensions and the session's
configured frame rate; a failed creation (constructor raised, or the
created writer not open) leaves the session stopped after that single
call; a stopped session ignores every further frame (no write happens)
until an explicit restart, which is what sets `recording` again; and a
raising write likewise stops the session. -/
theorem claim6_recording_stops_on_failure :
    (∀ (s : CornerSession) (p : String) (w h : Nat),
      s.recording = true → s.file = some p → s.writer = none →
      recordCornerFrame .created true w h s =
        ({ s with writer := some ⟨p, s.fps, w, h⟩ }, true)) ∧
    (∀ (s : CornerSession) (p : String) (co : CreateOutcome) (wOk : Bool) (w h : Nat),
      s.recording = true → s.file = some p → s.writer = none → co ≠ .created →
      recordCornerFrame co wOk w h s = (stopCornerRecording s, false) ∧
      (stopCornerRecording s).recording = false) ∧
    (∀ (s : CornerSession) (co : CreateOutcome) (wOk : Bool) (w h : Nat),
      s.recording = false → recordCornerFrame co wOk w h s = (s, false)) ∧
    (∀ (s : CornerSession) (p : String) (wr : Writer) (co : CreateOutcome) (w h : Nat),
      s.recording = true → s.file = some p → s.writer = some wr →
      recordCornerFrame co false w h s = (stopCornerRecording s, false)) ∧
    (∀ (fps : ℚ) (f : String) (s : CornerSession),
      (startCornerRecording fps f s).recording = true) := by
  refine ⟨?_, ?_, ?_, ?_, ?_⟩
  · intro s p w h hr hf hw
    simp [recordCornerFrame, hr, hf, hw]
  · intro s p co wOk w h hr hf hw hco
    cases co with
    | created => exact absurd rfl hco
    | raises => simp [recordCornerFrame, hr, hf, hw, stopCornerRecording]
    | notOpened => simp [recordCornerFrame, hr, hf, hw, stopCornerRecording]
  · intro s co wOk w h hr
    simp [recordCornerFrame, hr]
  · intro s p wr co w h hr hf hw
    simp [recordCornerFrame, hr, hf, hw]
  · intro fps f s
    simp [startCornerRecording]

/-- C6 witness: a live session whose writer constructor raises is stopped
by that single call, and the stopped session ignores the next frame. -/
theorem claim6_witness :
    recordCornerFrame .raises true 640 480 cornerActive =
      (stopCornerRecording cornerActive, false) ∧
    (stopCornerRecording cornerActive).recording = false ∧
    recordCornerFrame .created true 640 480 (stopCornerRecording cornerActive) =
      (stopCornerRecording cornerActive, false) ∧
    (startCornerRecording 30 "captures/record_corner1_b.mp4"
      (stopCornerRecording cornerActive)).recording = true := by
  refine ⟨?_, ?_, ?_, ?_⟩
  · exact (claim6_recording_stops_on_failure.2.1 cornerActive
      "captures/record_corner1_20260101_120000.mp4" .raises true 640 480
      rfl rfl rfl (by decide)).1
  · exact (claim6_recording_stops_on_failure.2.1 cornerActive
      "captures/record_corner1_20260101_120000.mp4" .raises true 640 480
      rfl rfl rfl (by decide)).2
  · exact claim6_recording_stops_on_failure.2.2.1 (stopCornerRecording cornerActive)
      .created true 640 480 rfl
  · exact claim6_recording_stops_on_failure.2.2.2.2 30 "captures/record_corner1_b.mp4"
      (stopCornerRecording cornerActive)

/-! ### Claim C7 -/

/-- C7 counterexample: two nodes of one physical device, `/dev/video10`
(sysfs name `Camera Ten`) and `/dev/video2` (sysfs name `Camera Two`).
Sorted node-name order visits `/dev/video10` first (lexicographically
`"/dev/video10" < "/dev/video2"`), so the merged descriptor carries the
lowest index 2 and its path, but the *name of the first-visited node*,
`Camera Ten` — not the lowest-index node's name `Camera Two` as the claim
states. -/
theorem claim7_counterexample :
    scanLinux scanEnvTwoNodes ["/dev/video2", "/dev/video10"] = [scanEntryMerged] ∧
    scanEntryMerged.index = 2 ∧
    scanEntryMerged.path = "/dev/video2" ∧
    resolveName scanEnvTwoNodes "/dev/video2" 2 = "Camera Two" ∧
    scanEntryMerged.name = "Camera Ten" ∧
    scanEntryMerged.name ≠ resolveName scanEnvTwoNodes "/dev/video2" 2 := by
  decide

/-- C7 (amended): device nodes are visited in sorted node-name order (so
the scan result is invariant under permutation of the glob output), nodes
sharing a physical parent are merged into one descriptor which carries the
lowest index among the merged nodes and that node's path, while its name
(also shown inside `display`) is the one resolved for the *first node
visited in sorted order*, not necessarily the lowest-index node; the
returned sequence is ordered by index; and the index-probing fallback is
used exactly when the node scan is unavailable (non-Linux) or yields
nothing. -/
theorem claim7_node_scan_merging (isLinux : Bool) (env : ScanEnv) (nodes : List String)
    (penv : Nat → ProbeOutcome) :
    (∀ e ∈ scanLinux env nodes,
      (e.index ∈ e.allNodes ∧ ∀ m ∈ e.allNodes, e.index ≤ m) ∧
      (∃ node ∈ nodes, e.path = node ∧ parseVideoIdx node = some e.index) ∧
      (∃ node0 ∈ nodes, ∃ idx0, parseVideoIdx node0 = some idx0 ∧
        e.allNodes.head? = some idx0 ∧ e.name = resolveName env node0 idx0) ∧
      e.display = e.name ++ " (" ++ e.path ++ ")") ∧
    (scanLinux env nodes).Pairwise (fun a b => a.index ≤ b.index) ∧
    (∀ nodes', nodes.Perm nodes' → scanLinux env nodes = scanLinux env nodes') ∧
    (isLinux = false → scanCameras isLinux env nodes penv = probeIndices penv 10) ∧
    (scanLinux env nodes = [] → scanCameras isLinux env nodes penv = probeIndices penv 10) ∧
    (isLinux = true → scanLinux env nodes ≠ [] →
      scanCameras isLinux env nodes penv = scanLinux env nodes) := by
  refine ⟨?_, ?_, ?_, ?_, ?_, ?_⟩
  · refine scanLinux_inv env nodes _ ?_ ?_
    · intro node hn idx hp
      refine ⟨⟨?_, ?_⟩, ⟨node, hn, rfl, hp⟩, ⟨node, hn, idx, hp, ?_, rfl⟩, rfl⟩
      · show idx ∈ [idx]
        simp
      · intro m hm
        have hm' : m ∈ [idx] := hm
        show idx ≤ m
        simp at hm'
        omega
      · show ([idx] : List Nat).head? = some idx
        rfl
    · intro node hn idx e hp hR
      obtain ⟨⟨hmem, hmin⟩, ⟨np, hnp, hpath, hpp⟩, ⟨n0, hn0, idx0, hp0, hhead, hname⟩, hdisp⟩ := hR
      unfold mergeEntry
      by_cases hlt : idx < e.index
      · rw [if_pos hlt]
        refine ⟨⟨?_, ?_⟩, ⟨node, hn, rfl, hp⟩, ⟨n0, hn0, idx0, hp0, ?_, hname⟩, rfl⟩
        · show idx ∈ e.allNodes ++ [idx]
          simp
        · intro m hm
          have hm' : m ∈ e.allNodes ++ [idx] := hm
          show idx ≤ m
          rcases List.mem_append.1 hm' with h' | h'
          · have := hmin m h'
            omega
          · simp at h'
            omega
        · show (e.allNodes ++ [idx]).head? = some idx0
          cases hl : e.allNodes with
          | nil =>
            rw [hl] at hhead
            exact absurd hhead (by simp)
          | cons a rest =>
            rw [hl] at hhead
            simpa using hhead
      · rw [if_neg hlt]
        refine ⟨⟨?_, ?_⟩, ⟨np, hnp, hpath, hpp⟩, ⟨n0, hn0, idx0, hp0, ?_, hname⟩, hdisp⟩
        · show e.index ∈ e.allNodes ++ [idx]
          exact List.mem_append.2 (.inl hmem)
        · intro m hm
          have hm' : m ∈ e.allNodes ++ [idx] := hm
          show e.index ≤ m
          rcases List.mem_append.1 hm' with h' | h'
          · exact hmin m h'
          · simp at h'
            omega
        · show (e.allNodes ++ [idx]).head? = some idx0
          cases hl : e.allNodes with
          | nil =>
            rw [hl] at hhead
            exact absurd hhead (by simp)
          | cons a rest =>
            rw [hl] at hhead
            simpa using hhead
  · exact pairwise_sortByIdx _
  · intro nodes' hperm
    unfold scanLinux
    rw [sortStrings_eq_of_perm hperm]
  · intro h
    subst h
    simp [scanCameras]
  · intro h
    unfold scanCameras
    cases isLinux <;> simp [h]
  · intro h1 h2
    subst h1
    simp [scanCameras, List.isEmpty_iff, h2]

/-- C7 amended-claim witness: the fallback fires on a non-Linux scan, the
scan result ignores glob order, and the concrete merged entry indeed holds
the minimum of its merged node indices. -/
theorem claim7_witness :
    scanCameras false scanEnvTrivial [] penvOnly3 = probeIndices penvOnly3 10 ∧
    scanLinux scanEnvTwoNodes ["/dev/video2", "/dev/video10"] =
      scanLinux scanEnvTwoNodes ["/dev/video10", "/dev/video2"] ∧
    scanEntryMerged.index ∈ scanEntryMerged.allNodes := by
  refine ⟨?_, ?_, ?_⟩
  · exact (claim7_node_scan_merging false scanEnvTrivial [] penvOnly3).2.2.2.1 rfl
  · exact (claim7_node_scan_merging false scanEnvTwoNodes ["/dev/video2", "/dev/video10"]
      penvOnly3).2.2.1 ["/dev/video10", "/dev/video2"] (by decide)
  · exact (((claim7_node_scan_merging false scanEnvTwoNodes ["/dev/video2", "/dev/video10"]
      penvOnly3).1 scanEntryMerged (by decide)).1).1

/-! ### Claim C8 -/

/-- C8: during fallback index probing, a failure of one candidate index
(a raising constructor or an unopened capture) omits only that candidate:
the result with the failing environment is the fully-probed result with
exactly that index's entry filtered out, so probing continues through the
remaining indices up to the bound of 10 and no single failure aborts or
empties the enumeration. -/
theorem claim8_probe_failure_localized (env env' : Nat → ProbeOutcome) (j : Nat)
    (hagree : ∀ i, i ≠ j → env' i = env i) (hfail : env' j ≠ .opened) :
    probeIndices env' 10 =
      (probeIndices env 10).filter (fun e => decide (e.index ≠ j)) := by
  unfold probeIndices
  have hgen : ∀ ns : List Nat,
      (ns.filterMap fun idx =>
        match env' idx with | .opened => some (probeEntry idx) | _ => none) =
      (ns.filterMap fun idx =>
        match env idx with | .opened => some (probeEntry idx) | _ => none).filter
          (fun e => decide (e.index ≠ j)) := by
    intro ns
    induction ns with
    | nil => rfl
    | cons i ns ih =>
      by_cases hij : i = j
      · subst hij
        cases hv' : env' i with
        | opened => exact absurd hv' hfail
        | raises =>
          cases hv : env i with
          | opened => simp [List.filterMap_cons, List.filter_cons, hv, hv', probeEntry_index, ih]
          | raises => simp [List.filterMap_cons, hv, hv', ih]
          | notOpened => simp [List.filterMap_cons, hv, hv', ih]
        | notOpened =>
          cases hv : env i with
          | opened => simp [List.filterMap_cons, List.filter_cons, hv, hv', probeEntry_index, ih]
          | raises => simp [List.filterMap_cons, hv, hv', ih]
          | notOpened => simp [List.filterMap_cons, hv, hv', ih]
      · have hv := hagree i hij
        cases hvv : env i with
        | opened =>
          rw [hvv] at hv
          simp [List.filterMap_cons, List.filter_cons, hv, hvv, ih, probeEntry_index, hij]
        | raises =>
          rw [hvv] at hv
          simp [List.filterMap_cons, hv, hvv, ih]
        | notOpened =>
          rw [hvv] at hv
          simp [List.filterMap_cons, hv, hvv, ih]
  exact hgen (List.range 10)

/-- C8 witness: failing index 3 in an otherwise fully-openable probe
yields exactly the fully-probed result minus the index-3 entry. -/
theorem claim8_witness :
    probeIndices penvFail3 10 =
      (probeIndices penvAll 10).filter (fun e => decide (e.index ≠ 3)) := by
  refine claim8_probe_failure_localized penvAll penvFail3 3 ?_ (by decide)
  intro i hi
  simp [penvFail3, penvAll, hi]

/-! ### Claim C9 -/

/-- C9: clearing a role that is already idle is an idempotent no-op:
releasing an identity key with no stored handle leaves the registry
unchanged (and raises nothing — `releaseCap` is total), and clearing an
already-unassigned slot leaves the pending settings unchanged and is not
treated as an error. -/
theorem claim9_release_idle_noop :
    (∀ (src : Src) (st : RegistryState),
      alistGet (keySrc src) st.captures = none → releaseCap src st = st) ∧
    (∀ (p : Slots) (slot : Slot),
      p.getIdx slot = none → p.getPath slot = none →
      selectSlot slot none p = (p, false)) := by
  constructor
  · intro src st h
    simp [releaseCap, h]
  · intro p slot h1 h2
    cases p
    cases slot <;> simp_all [selectSlot, Slots.setSlot, Slots.getIdx, Slots.getPath]

/-- C9 witness: releasing an absent key of a concrete registry state and
clearing the already-empty corner-2 slot are both no-ops. -/
theorem claim9_witness :
    alistGet (keySrc (.int 2)) registryShared.captures = none ∧
    releaseCap (.int 2) registryShared = registryShared ∧
    slotsMain0.getIdx .corner2 = none ∧
    slotsMain0.getPath .corner2 = none ∧
    selectSlot .corner2 none slotsMain0 = (slotsMain0, false) := by
  refine ⟨by decide, claim9_release_idle_noop.1 (.int 2) registryShared (by decide),
    by decide, by decide,
    claim9_release_idle_noop.2 slotsMain0 .corner2 (by decide) (by decide)⟩

end MyEye
